import Mathlib

/-!
Verification of the halo-os-vbs-perf-harness event-tracing substrate.

The repository's `src/tracepoints/halo_tracepoints.h` declares the event
schemas (LTTng `TRACEPOINT_EVENT` entries for provider `halo`), and
`src/apps/*.cpp` contain the stage entry points that emit those events.
The encoder/decoder, capture buffer and frame correlator are specified in
the design document (spec §4.3–§4.6, §6) but their code is not under
`src/`; those components are modelled from the spec, as marked on each
definition.
-/

namespace Halo

/-! ## Event schema registry (from src/tracepoints/halo_tracepoints.h) -/

/-- Field types appearing in the tracepoint declarations:
`ctf_integer(uint64_t, ...)`, `ctf_integer(int32_t, ...)`, `ctf_string(...)`
(the latter bounded at encode time per spec §4.3). -/
inductive FieldType where
  | u64
  | i32
  | bstr
deriving DecidableEq, Repr

/-- One named, typed field of an event kind's schema. -/
structure FieldSchema where
  fname : String
  ftype : FieldType
deriving DecidableEq, Repr

/-- An event kind: provider, name, ordered fields (spec §3, Event Kind). -/
structure EventKind where
  provider : String
  ename : String
  fields : List FieldSchema
deriving DecidableEq, Repr

/-- The schema registry, transcribed from the nine `TRACEPOINT_EVENT`
declarations in `src/tracepoints/halo_tracepoints.h`, in declaration
order; the kind id (spec §6 `kind_id: u16`) is the index in this list. -/
def registry : List EventKind :=
  [ ⟨"halo", "camera_ingest",
      [⟨"frame_id", .u64⟩, ⟨"ts_ns", .u64⟩]⟩,
    ⟨"halo", "perception_start",
      [⟨"frame_id", .u64⟩, ⟨"ts_ns", .u64⟩]⟩,
    ⟨"halo", "perception_end",
      [⟨"frame_id", .u64⟩, ⟨"ts_ns", .u64⟩]⟩,
    ⟨"halo", "planning_start",
      [⟨"frame_id", .u64⟩, ⟨"ts_ns", .u64⟩]⟩,
    ⟨"halo", "planning_end",
      [⟨"frame_id", .u64⟩, ⟨"ts_ns", .u64⟩]⟩,
    ⟨"halo", "control_output",
      [⟨"frame_id", .u64⟩, ⟨"ts_ns", .u64⟩]⟩,
    ⟨"halo", "brake_actuate",
      [⟨"frame_id", .u64⟩, ⟨"ts_ns", .u64⟩, ⟨"pressure_bar", .i32⟩]⟩,
    ⟨"halo", "npu_task_begin",
      [⟨"task_name", .bstr⟩]⟩,
    ⟨"halo", "npu_task_end",
      [⟨"task_name", .bstr⟩]⟩ ]

/-! ## Encoder / decoder (modelled from the spec) -/

/-- Error taxonomy relevant to encoding/decoding (spec §7). -/
inductive TraceError where
  | StringTooLong
  | MalformedRecord
deriving DecidableEq, Repr

/-- Modelled from the spec: the configured maximum length of a bounded
string (spec §4.3 leaves the number unspecified; the one-byte length
prefix used below fixes 255 as the ceiling). -/
def maxStringLen : Nat := 255

/-- A runtime field value. Bounded strings are byte lists, as the C
source hands the encoder raw `const char*` bytes. -/
inductive FieldValue where
  | u64 (v : Nat)
  | i32 (v : Int)
  | bstr (s : List Nat)
deriving DecidableEq, Repr

/-- A field value matches a schema field type and is within bounds
(fixed-width integers in range, bounded string within the maximum and
made of bytes). -/
def matchesType : FieldValue → FieldType → Prop
  | .u64 v, .u64 => v < 2 ^ 64
  | .i32 v, .i32 => -(2 ^ 31) ≤ v ∧ v < 2 ^ 31
  | .bstr s, .bstr => s.length ≤ maxStringLen ∧ ∀ b ∈ s, b < 256
  | _, _ => False

instance : ∀ fv ft, Decidable (matchesType fv ft) := by
  intro fv ft
  cases fv <;> cases ft <;> simp only [matchesType] <;> infer_instance

/-- Little-endian byte encoding of the low `n` bytes of `v`
(fixed-width field layout, spec §4.3/§6). -/
def toLE : Nat → Nat → List Nat
  | 0, _ => []
  | n + 1, v => v % 256 :: toLE n (v / 256)

/-- Little-endian byte decoding, inverse of `toLE` on in-range values. -/
def fromLE : List Nat → Nat
  | [] => 0
  | b :: bs => b + 256 * fromLE bs

/-- Split off the first `n` bytes of a record, failing if it is shorter. -/
def takeN (n : Nat) (l : List Nat) : Option (List Nat × List Nat) :=
  if n ≤ l.length then some (l.take n, l.drop n) else none

/-- Modelled from the spec: serialize one field value (spec §4.3):
fixed-width integers little-endian at fixed offsets, `i32` in two's
complement, bounded strings length-prefixed, failing with
`StringTooLong` beyond the maximum rather than truncating. -/
def encodeField : FieldValue → Except TraceError (List Nat)
  | .u64 v => .ok (toLE 8 v)
  | .i32 v => .ok (toLE 4 (v % (2 ^ 32 : Int)).toNat)
  | .bstr s =>
      if s.length ≤ maxStringLen then .ok (s.length :: s)
      else .error .StringTooLong

/-- Modelled from the spec: serialize a field-value list in schema order. -/
def encodeFields : List FieldValue → Except TraceError (List Nat)
  | [] => .ok []
  | fv :: rest =>
    match encodeField fv, encodeFields rest with
    | .ok hd, .ok tl => .ok (hd ++ tl)
    | .error e, _ => .error e
    | .ok _, .error e => .error e

/-- Modelled from the spec: `encode(kind_id, timestamp_ns, field_values)`
producing the persisted record layout
`[kind_id: u16][timestamp_ns: u64][field bytes per schema]` (spec §6). -/
def encode (kid ts : Nat) (vals : List FieldValue) :
    Except TraceError (List Nat) :=
  match encodeFields vals with
  | .error e => .error e
  | .ok fb => .ok (toLE 2 kid ++ toLE 8 ts ++ fb)

/-- Modelled from the spec: decode one field of the given type from the
front of the byte sequence, returning the remainder. -/
def decodeField : FieldType → List Nat → Option (FieldValue × List Nat)
  | .u64, l =>
      (takeN 8 l).map fun p => (.u64 (fromLE p.1), p.2)
  | .i32, l =>
      (takeN 4 l).map fun p =>
        (.i32 (if fromLE p.1 < 2 ^ 31 then (fromLE p.1 : Int)
               else (fromLE p.1 : Int) - 2 ^ 32), p.2)
  | .bstr, l =>
      match l with
      | [] => none
      | len :: rest => (takeN len rest).map fun p => (.bstr p.1, p.2)

/-- Modelled from the spec: decode a field list per the schema, with no
backtracking (spec §4.3). -/
def decodeFields : List FieldSchema → List Nat →
    Option (List FieldValue × List Nat)
  | [], l => some ([], l)
  | f :: fs, l =>
    match decodeField f.ftype l with
    | none => none
    | some (fv, r) =>
      match decodeFields fs r with
      | none => none
      | some (fvs, r2) => some (fv :: fvs, r2)

/-- Modelled from the spec: `decode(byte_sequence) -> Event Instance`,
failing with `MalformedRecord` if the byte sequence is shorter than the
schema demands or the kind id is unknown (spec §4.3). -/
def decode (bytes : List Nat) :
    Except TraceError (Nat × Nat × List FieldValue) :=
  match takeN 2 bytes with
  | none => .error .MalformedRecord
  | some (kb, r1) =>
    match registry[fromLE kb]? with
    | none => .error .MalformedRecord
    | some kind =>
      match takeN 8 r1 with
      | none => .error .MalformedRecord
      | some (tb, r2) =>
        match decodeFields kind.fields r2 with
        | none => .error .MalformedRecord
        | some (vals, rest) =>
          if rest.isEmpty then .ok (fromLE kb, fromLE tb, vals)
          else .error .MalformedRecord

/-- The predicate relating a value list to a schema field list. -/
def matchesSchema (vals : List FieldValue) (fs : List FieldSchema) : Prop :=
  List.Forall₂ (fun fv f => matchesType fv f.ftype) vals fs

/-! ## Capture buffer (modelled from the spec, §4.4–§4.5) -/

/-- Result of an append (spec §4.4). -/
inductive AppendResult where
  | Ok
  | Full
deriving DecidableEq, Repr

/-- Modelled from the spec: a per-producer capture buffer (spec §4.4):
the current append-only segment and its capacity, the number of fresh
segments still available from the pool, the segments already handed off
to the Writer in handoff order, and the exposed drop counter. -/
structure CaptureBuffer (α : Type) where
  seg : List α
  cap : Nat
  pool : Nat
  handed : List (List α)
  drops : Nat
deriving DecidableEq, Repr

/-- Modelled from the spec: non-blocking `append` (spec §4.4). If the
current segment has room the record is appended to it; otherwise the
full segment is handed off and a fresh one acquired from the pool; if
the pool is exhausted the call fails with `Full`, the record is dropped
and the drop counter is incremented. -/
def CaptureBuffer.append {α : Type} (b : CaptureBuffer α) (r : α) :
    AppendResult × CaptureBuffer α :=
  if b.seg.length < b.cap then
    (.Ok, { b with seg := b.seg ++ [r] })
  else if 0 < b.pool then
    (.Ok, { b with handed := b.handed ++ [b.seg], seg := [r],
                   pool := b.pool - 1 })
  else
    (.Full, { b with drops := b.drops + 1 })

/-- Modelled from the spec: the records this producer contributes to
the persisted trace once the Writer has drained every handed-off
segment in handoff order and a final flush has persisted the still-open
segment (spec §4.5, §5). -/
def CaptureBuffer.persisted {α : Type} (b : CaptureBuffer α) : List α :=
  b.handed.flatten ++ b.seg

/-- Append a whole sequence of records in order. -/
def CaptureBuffer.appendMany {α : Type} (b : CaptureBuffer α)
    (rs : List α) : CaptureBuffer α :=
  rs.foldl (fun b r => (b.append r).2) b

/-- A fresh buffer with the given segment capacity and pool size. -/
def CaptureBuffer.fresh (α : Type) (cap pool : Nat) : CaptureBuffer α :=
  ⟨[], cap, pool, [], 0⟩

/-! ## Stage entry points (from src/apps) -/

/-- One emitted `halo` event with its argument values, as handed to the
`tracepoint(halo, ...)` calls in src/apps. -/
inductive HaloEvent where
  | camera_ingest (frame_id ts_ns : Nat)
  | perception_start (frame_id ts_ns : Nat)
  | perception_end (frame_id ts_ns : Nat)
  | planning_start (frame_id ts_ns : Nat)
  | planning_end (frame_id ts_ns : Nat)
  | control_output (frame_id ts_ns : Nat)
  | brake_actuate (frame_id ts_ns : Nat) (pressure : Int)
deriving DecidableEq, Repr

/-- The ts_ns argument of an emitted event. -/
def HaloEvent.ts : HaloEvent → Nat
  | .camera_ingest _ t => t
  | .perception_start _ t => t
  | .perception_end _ t => t
  | .planning_start _ t => t
  | .planning_end _ t => t
  | .control_output _ t => t
  | .brake_actuate _ t _ => t

/-- From src/apps/aeb_perception.cpp: `get_monotonic_ns` reads the
monotonic clock. Modelled as reading the n-th sample of the clock's
sample stream `clk` and advancing the read counter, so that each call
site gets a fresh reading. -/
def get_monotonic_ns (clk : Nat → Nat) (n : Nat) : Nat × Nat :=
  (clk n, n + 1)

/-- From src/apps/aeb_perception.cpp: `detect_objects` has an empty
body (a stub); it emits no events. -/
def detect_objects : List HaloEvent := []

/-- Modelled from the spec: `compute_trajectory` is called by `plan`
(src/apps/aeb_planning.cpp) but its definition is absent from src; the
spec (§9) records it as an unimplemented stub, so it emits no events. -/
def compute_trajectory (_frame_id : Nat) : List HaloEvent := []

/-- From src/apps/aeb_perception.cpp: `process_camera_frame` emits
camera_ingest, then perception_start, runs `detect_objects`, then emits
perception_end, passing its frame_id to every event and calling
`get_monotonic_ns()` afresh at each emission. -/
def process_camera_frame (frame_id : Nat) (clk : Nat → Nat) (n : Nat) :
    List HaloEvent × Nat :=
  let p1 := get_monotonic_ns clk n
  let e1 := HaloEvent.camera_ingest frame_id p1.1
  let p2 := get_monotonic_ns clk p1.2
  let e2 := HaloEvent.perception_start frame_id p2.1
  let mid := detect_objects
  let p3 := get_monotonic_ns clk p2.2
  let e3 := HaloEvent.perception_end frame_id p3.1
  ([e1, e2] ++ mid ++ [e3], p3.2)

/-- From src/apps/aeb_planning.cpp: `plan` emits planning_start, runs
`compute_trajectory`, then emits planning_end, with fresh timestamps. -/
def plan (frame_id : Nat) (clk : Nat → Nat) (n : Nat) :
    List HaloEvent × Nat :=
  let p1 := get_monotonic_ns clk n
  let e1 := HaloEvent.planning_start frame_id p1.1
  let mid := compute_trajectory frame_id
  let p2 := get_monotonic_ns clk p1.2
  let e2 := HaloEvent.planning_end frame_id p2.1
  ([e1] ++ mid ++ [e2], p2.2)

/-- Truncation toward zero of a rational: the value semantics of a C++
float-to-integer conversion for in-range arguments. -/
def truncTowardZero (q : ℚ) : Int := if 0 ≤ q then ⌊q⌋ else ⌈q⌉

/-- From src/apps/aeb_control.cpp: `static_cast<int32_t>(brake_pressure)`.
C++ defines float-to-int conversion as truncation toward zero, and only
when the truncated value is representable in the target type; for
out-of-range (or NaN) arguments the result is undefined, modelled as
none. The finite float argument is modelled by the rational it denotes. -/
def static_cast_i32 (q : ℚ) : Option Int :=
  if -(2 ^ 31) ≤ truncTowardZero q ∧ truncTowardZero q < 2 ^ 31 then
    some (truncTowardZero q)
  else none

/-- From src/apps/aeb_control.cpp: `execute_control` emits
control_output and then brake_actuate with the cast pressure, with a
fresh timestamp each; no defined result when the cast is undefined. -/
def execute_control (frame_id : Nat) (brake_pressure : ℚ)
    (clk : Nat → Nat) (n : Nat) : Option (List HaloEvent × Nat) :=
  let p1 := get_monotonic_ns clk n
  let e1 := HaloEvent.control_output frame_id p1.1
  let p2 := get_monotonic_ns clk p1.2
  match static_cast_i32 brake_pressure with
  | none => none
  | some pr => some ([e1, HaloEvent.brake_actuate frame_id p2.1 pr], p2.2)

/-! ## Frame correlator (modelled from the spec, §4.6) -/

/-- The seven correlated stage kinds in pipeline order. -/
inductive Stage where
  | camera
  | percStart
  | percEnd
  | planStart
  | planEnd
  | control
  | brake
deriving DecidableEq, Repr

/-- Pipeline position of a stage. -/
def Stage.idx : Stage → Nat
  | .camera => 0
  | .percStart => 1
  | .percEnd => 2
  | .planStart => 3
  | .planEnd => 4
  | .control => 5
  | .brake => 6

/-- The stages in pipeline order. -/
def stageList : List Stage :=
  [.camera, .percStart, .percEnd, .planStart, .planEnd, .control, .brake]

/-- A decoded correlated event as seen by the correlator: stage kind,
frame_id, timestamp, and the pressure argument (carried by
brake_actuate, zero elsewhere; the correlator never reads it). -/
structure CEvent where
  stage : Stage
  frame : Nat
  ts : Nat
  pressure : Int
deriving DecidableEq, Repr

/-- Modelled from the spec: the timestamp of the event observed in the
trace for the given frame and stage, if any. -/
def tsOf (evs : List CEvent) (f : Nat) (s : Stage) : Option Nat :=
  (evs.find? fun e => e.frame == f && e.stage == s).map CEvent.ts

/-- Modelled from the spec: a derived interval between two stages of a
frame; none (= Unavailable) when either stage event is missing
(spec §4.6 edge-case policy). -/
def interval (evs : List CEvent) (f : Nat) (a b : Stage) : Option Int :=
  match tsOf evs f a, tsOf evs f b with
  | some ta, some tb => some ((tb : Int) - ta)
  | _, _ => none

/-- Modelled from the spec: two stages of a frame both observed, but
with timestamps against pipeline order. -/
def outOfOrder (evs : List CEvent) (f : Nat) (a b : Stage) : Bool :=
  match tsOf evs f a, tsOf evs f b with
  | some ta, some tb => decide (a.idx < b.idx) && decide (tb < ta)
  | _, _ => false

/-- Modelled from the spec: the OrderingAnomaly flag of a frame — some
pair of its observed stage events is out of pipeline order (spec §4.6);
the events are flagged, not reordered. -/
def anomalyFlag (evs : List CEvent) (f : Nat) : Bool :=
  stageList.any fun a => stageList.any fun b => outOfOrder evs f a b

/-- Modelled from the spec: a Frame Timeline (spec §3, §4.6): the six
derived inter-stage intervals (none = Unavailable) plus the
OrderingAnomaly flag. -/
structure FrameTimeline where
  cameraToPerceptionStart : Option Int
  perceptionStartToEnd : Option Int
  perceptionEndToPlanningStart : Option Int
  planningStartToEnd : Option Int
  planningEndToControlOutput : Option Int
  controlOutputToBrakeActuate : Option Int
  orderingAnomaly : Bool
deriving DecidableEq, Repr

/-- Modelled from the spec: `correlate` restricted to one frame_id
(spec §4.6): the six derived intervals and the anomaly flag, computed
from that frame's events only. -/
def correlate (evs : List CEvent) (f : Nat) : FrameTimeline where
  cameraToPerceptionStart := interval evs f .camera .percStart
  perceptionStartToEnd := interval evs f .percStart .percEnd
  perceptionEndToPlanningStart := interval evs f .percEnd .planStart
  planningStartToEnd := interval evs f .planStart .planEnd
  planningEndToControlOutput := interval evs f .planEnd .control
  controlOutputToBrakeActuate := interval evs f .control .brake
  orderingAnomaly := anomalyFlag evs f

/-- The synthetic one-frame trace of spec §8. -/
def syntheticTrace (f : Nat) : List CEvent :=
  [⟨.camera, f, 0, 0⟩, ⟨.percStart, f, 5, 0⟩, ⟨.percEnd, f, 12, 0⟩,
   ⟨.planStart, f, 12, 0⟩, ⟨.planEnd, f, 20, 0⟩, ⟨.control, f, 21, 0⟩,
   ⟨.brake, f, 22, 40⟩]

/-- Remove one frame's events of one stage from a trace (e.g. its
brake_actuate events, or its perception_end events). -/
def dropStage (evs : List CEvent) (f : Nat) (s : Stage) : List CEvent :=
  evs.filter fun e => !(e.stage == s && e.frame == f)

/-- A timeline with the interval(s) whose endpoints include the given
stage marked Unavailable and every other field left unchanged. -/
def maskStage (t : FrameTimeline) (s : Stage) : FrameTimeline where
  cameraToPerceptionStart :=
    if s = .camera ∨ s = .percStart then none
    else t.cameraToPerceptionStart
  perceptionStartToEnd :=
    if s = .percStart ∨ s = .percEnd then none
    else t.perceptionStartToEnd
  perceptionEndToPlanningStart :=
    if s = .percEnd ∨ s = .planStart then none
    else t.perceptionEndToPlanningStart
  planningStartToEnd :=
    if s = .planStart ∨ s = .planEnd then none
    else t.planningStartToEnd
  planningEndToControlOutput :=
    if s = .planEnd ∨ s = .control then none
    else t.planningEndToControlOutput
  controlOutputToBrakeActuate :=
    if s = .control ∨ s = .brake then none
    else t.controlOutputToBrakeActuate
  orderingAnomaly := t.orderingAnomaly

/-- A trace whose frame 1 has perception events with timestamps against
pipeline order, alongside an unrelated frame 2 event. -/
def anomalyTrace : List CEvent :=
  [⟨.percStart, 1, 10, 0⟩, ⟨.percEnd, 1, 8, 0⟩, ⟨.camera, 2, 3, 0⟩]

/-- The events of frame 2 of `anomalyTrace` alone. -/
def otherFrameTrace : List CEvent :=
  [⟨.camera, 2, 3, 0⟩]

/-! ## Round-trip lemmas for the encoder/decoder -/

theorem toLE_length (n v : Nat) : (toLE n v).length = n := by
  induction n generalizing v with
  | zero => rfl
  | succ k ih => simp [toLE, ih]

theorem fromLE_toLE (n v : Nat) (h : v < 256 ^ n) : fromLE (toLE n v) = v := by
  induction n generalizing v with
  | zero =>
    simp only [pow_zero, Nat.lt_one_iff] at h
    simp [toLE, fromLE, h]
  | succ k ih =>
    have hk : v / 256 < 256 ^ k := by
      rw [Nat.div_lt_iff_lt_mul (by norm_num : (0 : Nat) < 256)]
      calc v < 256 ^ (k + 1) := h
        _ = 256 ^ k * 256 := by rw [pow_succ]
    simp only [toLE, fromLE]
    rw [ih (v / 256) hk]
    omega

theorem takeN_of_length {l : List Nat} {n : Nat} (h : l.length = n)
    (r : List Nat) : takeN n (l ++ r) = some (l, r) := by
  subst h
  simp [takeN, List.take_left, List.drop_left]

theorem decodeField_encodeField (fv : FieldValue) (ft : FieldType)
    (bs rest : List Nat) (hm : matchesType fv ft)
    (he : encodeField fv = .ok bs) :
    decodeField ft (bs ++ rest) = some (fv, rest) := by
  cases fv with
  | u64 v =>
    cases ft with
    | i32 => simp [matchesType] at hm
    | bstr => simp [matchesType] at hm
    | u64 =>
      simp only [matchesType] at hm
      simp only [encodeField, Except.ok.injEq] at he
      subst he
      simp only [decodeField, takeN_of_length (toLE_length 8 v) rest,
        Option.map_some']
      rw [fromLE_toLE 8 v (by norm_num at hm ⊢; omega)]
  | i32 v =>
    cases ft with
    | u64 => simp [matchesType] at hm
    | bstr => simp [matchesType] at hm
    | i32 =>
      simp only [matchesType] at hm
      simp only [encodeField, Except.ok.injEq] at he
      subst he
      have h0 : (0 : Int) ≤ v % 2 ^ 32 := Int.emod_nonneg v (by norm_num)
      have h3 : v % (2 ^ 32 : Int) < 2 ^ 32 := Int.emod_lt_of_pos v (by norm_num)
      have hlt : (v % (2 ^ 32 : Int)).toNat < 256 ^ 4 := by
        norm_num at h3 ⊢
        omega
      simp only [decodeField, takeN_of_length (toLE_length 4 _) rest,
        Option.map_some']
      rw [fromLE_toLE 4 _ hlt]
      simp only [Option.some.injEq, Prod.mk.injEq, FieldValue.i32.injEq,
        and_true]
      norm_num at hm h0 h3 ⊢
      split <;> omega
  | bstr s =>
    cases ft with
    | u64 => simp [matchesType] at hm
    | i32 => simp [matchesType] at hm
    | bstr =>
      simp only [matchesType] at hm
      simp only [encodeField, if_pos hm.1, Except.ok.injEq] at he
      subst he
      simp [decodeField, takeN_of_length (rfl : s.length = s.length) rest]

theorem encodeField_isOk (fv : FieldValue) (ft : FieldType)
    (hm : matchesType fv ft) : ∃ bs, encodeField fv = .ok bs := by
  cases fv with
  | u64 v => exact ⟨_, rfl⟩
  | i32 v => exact ⟨_, rfl⟩
  | bstr s =>
    cases ft with
    | u64 => simp [matchesType] at hm
    | i32 => simp [matchesType] at hm
    | bstr =>
      simp only [matchesType] at hm
      exact ⟨s.length :: s, by simp [encodeField, hm.1]⟩

theorem encodeFields_isOk (vals : List FieldValue) (fs : List FieldSchema)
    (hm : matchesSchema vals fs) : ∃ bs, encodeFields vals = .ok bs := by
  induction hm with
  | nil => exact ⟨[], rfl⟩
  | @cons fv f vs fs2 hfv htl ih =>
    obtain ⟨hd, hhd⟩ := encodeField_isOk fv f.ftype hfv
    obtain ⟨tl, htl2⟩ := ih
    exact ⟨hd ++ tl, by simp [encodeFields, hhd, htl2]⟩

theorem decodeFields_encodeFields (vals : List FieldValue)
    (fs : List FieldSchema) (bs rest : List Nat)
    (hm : matchesSchema vals fs) (he : encodeFields vals = .ok bs) :
    decodeFields fs (bs ++ rest) = some (vals, rest) := by
  induction hm generalizing bs with
  | nil =>
    simp only [encodeFields, Except.ok.injEq] at he
    subst he
    simp [decodeFields]
  | @cons fv f vs fs2 hfv htl ih =>
    simp only [encodeFields] at he
    cases hhd : encodeField fv with
    | error e => simp [hhd] at he
    | ok hd =>
      cases htl2 : encodeFields vs with
      | error e => simp [hhd, htl2] at he
      | ok tl =>
        simp only [hhd, htl2, Except.ok.injEq] at he
        subst he
        simp only [decodeFields, List.append_assoc,
          decodeField_encodeField fv f.ftype hd (tl ++ rest) hfv hhd,
          ih tl htl2]

/-- C1: for every registered event kind and every field-value list that
matches the kind's schema and is within bounds, decoding the encoding of
(kind, timestamp, fields) returns exactly (kind, timestamp, fields). -/
theorem claim_C1_roundtrip (kid : Nat) (kind : EventKind) (ts : Nat)
    (vals : List FieldValue) (hk : registry[kid]? = some kind)
    (hts : ts < 2 ^ 64) (hm : matchesSchema vals kind.fields) :
    (encode kid ts vals).bind decode = .ok (kid, ts, vals) := by
  obtain ⟨fb, hfb⟩ := encodeFields_isOk vals kind.fields hm
  have hlen : kid < registry.length := by
    by_contra hc
    push_neg at hc
    rw [List.getElem?_eq_none hc] at hk
    exact Option.noConfusion hk
  have hreg9 : registry.length = 9 := rfl
  rw [hreg9] at hlen
  have hkid : kid < 256 ^ 2 := by norm_num; omega
  have hts8 : ts < 256 ^ 8 := by norm_num at hts ⊢; omega
  have hdf := decodeFields_encodeFields vals kind.fields fb [] hm hfb
  rw [List.append_nil] at hdf
  simp only [encode, hfb, Except.bind, decode, List.append_assoc,
    takeN_of_length (toLE_length 2 kid), takeN_of_length (toLE_length 8 ts),
    fromLE_toLE 2 kid hkid, fromLE_toLE 8 ts hts8, hk, hdf,
    List.isEmpty_nil, if_true]

/-- Witness for C1 at the brake_actuate record (kid 6, ts 22,
frame_id 1, ts_ns 22, pressure 40). -/
theorem claim_C1_roundtrip_witness :
    (encode 6 22 [.u64 1, .u64 22, .i32 40]).bind decode =
      .ok (6, 22, [.u64 1, .u64 22, .i32 40]) :=
  claim_C1_roundtrip 6 ⟨"halo", "brake_actuate",
      [⟨"frame_id", .u64⟩, ⟨"ts_ns", .u64⟩, ⟨"pressure_bar", .i32⟩]⟩
    22 [.u64 1, .u64 22, .i32 40] rfl (by norm_num)
    (List.Forall₂.cons (by norm_num [matchesType])
      (List.Forall₂.cons (by norm_num [matchesType])
        (List.Forall₂.cons (by norm_num [matchesType]) List.Forall₂.nil)))

/-! ## C6: over-long bounded strings -/

theorem encodeField_ok_or_tooLong (fv : FieldValue) :
    (∃ bs, encodeField fv = .ok bs) ∨
      encodeField fv = .error .StringTooLong := by
  cases fv with
  | u64 v => exact .inl ⟨_, rfl⟩
  | i32 v => exact .inl ⟨_, rfl⟩
  | bstr s =>
    by_cases h : s.length ≤ maxStringLen
    · exact .inl ⟨s.length :: s, by simp [encodeField, h]⟩
    · exact .inr (by simp [encodeField, h])

theorem encodeFields_long_string (pre post : List FieldValue)
    (s : List Nat) (h : maxStringLen < s.length) :
    encodeFields (pre ++ .bstr s :: post) = .error .StringTooLong := by
  induction pre with
  | nil =>
    simp only [List.nil_append, encodeFields, encodeField,
      if_neg (by omega : ¬ s.length ≤ maxStringLen)]
  | cons fv rest ih =>
    rcases encodeField_ok_or_tooLong fv with ⟨bs, hbs⟩ | hbs <;>
      simp only [List.cons_append, encodeFields, List.append_eq, ih, hbs]

/-- C6: encoding any field list containing a bounded string longer than
the configured maximum fails with StringTooLong and emits no record. -/
theorem claim_C6_string_too_long (kid ts : Nat) (pre post : List FieldValue)
    (s : List Nat) (h : maxStringLen < s.length) :
    encode kid ts (pre ++ .bstr s :: post) = .error .StringTooLong := by
  simp only [encode, encodeFields_long_string pre post s h]

/-- Witness for C6: a 256-byte task name fails to encode. -/
theorem claim_C6_string_too_long_witness :
    encode 7 0 ([] ++ .bstr (List.replicate 256 0) :: []) =
      .error .StringTooLong :=
  claim_C6_string_too_long 7 0 [] [] (List.replicate 256 0)
    (by rw [List.length_replicate]; norm_num [maxStringLen])

/-! ## C5: field layout of the nine registered kinds -/

/-- C5: every correlated kind carries frame_id u64 as its first field,
brake_actuate additionally carries pressure_bar i32, and the two span
kinds carry no frame_id but a task_name bounded string. -/
theorem claim_C5_schema_fields :
    (∀ n ∈ ["camera_ingest", "perception_start", "perception_end",
            "planning_start", "planning_end", "control_output",
            "brake_actuate"],
       ∃ k ∈ registry, k.provider = "halo" ∧ k.ename = n ∧
         k.fields.head? = some ⟨"frame_id", FieldType.u64⟩) ∧
    (∃ k ∈ registry, k.ename = "brake_actuate" ∧
       ⟨"pressure_bar", FieldType.i32⟩ ∈ k.fields) ∧
    (∀ n ∈ ["npu_task_begin", "npu_task_end"],
       ∃ k ∈ registry, k.ename = n ∧
         (∀ f ∈ k.fields, f.fname ≠ "frame_id") ∧
         ⟨"task_name", FieldType.bstr⟩ ∈ k.fields) := by
  set_option maxRecDepth 10000 in decide

/-- Witness for C5 at camera_ingest, brake_actuate and npu_task_begin. -/
theorem claim_C5_schema_fields_witness :
    (∃ k ∈ registry, k.provider = "halo" ∧ k.ename = "camera_ingest" ∧
      k.fields.head? = some ⟨"frame_id", FieldType.u64⟩) ∧
    (∃ k ∈ registry, k.ename = "brake_actuate" ∧
      ⟨"pressure_bar", FieldType.i32⟩ ∈ k.fields) ∧
    (∃ k ∈ registry, k.ename = "npu_task_begin" ∧
      (∀ f ∈ k.fields, f.fname ≠ "frame_id") ∧
      ⟨"task_name", FieldType.bstr⟩ ∈ k.fields) :=
  ⟨claim_C5_schema_fields.1 "camera_ingest"
      (by set_option maxRecDepth 2000 in decide),
   claim_C5_schema_fields.2.1,
   claim_C5_schema_fields.2.2 "npu_task_begin"
      (by set_option maxRecDepth 2000 in decide)⟩

/-- C3: appending to a buffer whose segment is full when the pool is
exhausted returns Full, increments the drop counter by exactly one, and
leaves the segment, the handed-off segments and hence the persisted
trace unchanged: the dropped event leaves no partial record behind. -/
theorem claim_C3_full_drop {α : Type} (b : CaptureBuffer α) (r : α)
    (hfull : b.cap ≤ b.seg.length) (hpool : b.pool = 0) :
    (b.append r).1 = .Full ∧
    (b.append r).2.drops = b.drops + 1 ∧
    (b.append r).2.persisted = b.persisted ∧
    (b.append r).2.seg = b.seg ∧
    (b.append r).2.handed = b.handed := by
  have h1 : ¬ b.seg.length < b.cap := by omega
  have h2 : ¬ 0 < b.pool := by omega
  simp [CaptureBuffer.append, h1, h2, CaptureBuffer.persisted]

/-- Witness for C3 at a one-slot buffer holding one record, pool empty. -/
theorem claim_C3_full_drop_witness :
    ((⟨[0], 1, 0, [], 0⟩ : CaptureBuffer Nat).append 1).1 = .Full ∧
    ((⟨[0], 1, 0, [], 0⟩ : CaptureBuffer Nat).append 1).2.drops = 0 + 1 ∧
    ((⟨[0], 1, 0, [], 0⟩ : CaptureBuffer Nat).append 1).2.persisted =
      (⟨[0], 1, 0, [], 0⟩ : CaptureBuffer Nat).persisted ∧
    ((⟨[0], 1, 0, [], 0⟩ : CaptureBuffer Nat).append 1).2.seg = [0] ∧
    ((⟨[0], 1, 0, [], 0⟩ : CaptureBuffer Nat).append 1).2.handed = [] :=
  claim_C3_full_drop ⟨[0], 1, 0, [], 0⟩ 1 (by norm_num) rfl

/-- One append extends the persisted trace by the new record or, on a
drop, leaves it unchanged. -/
theorem persisted_append {α : Type} (b : CaptureBuffer α) (r : α) :
    (b.append r).2.persisted = b.persisted ++ [r] ∨
    (b.append r).2.persisted = b.persisted := by
  by_cases h1 : b.seg.length < b.cap
  · left
    simp [CaptureBuffer.append, h1, CaptureBuffer.persisted]
  · by_cases h2 : 0 < b.pool
    · left
      simp [CaptureBuffer.append, h1, h2, CaptureBuffer.persisted]
    · right
      simp [CaptureBuffer.append, h1, h2, CaptureBuffer.persisted]

/-- The persisted trace of a producer is its appended records in append
order, minus dropped ones: a sublist of the appended sequence. -/
theorem persisted_appendMany_sublist {α : Type} (rs : List α)
    (b : CaptureBuffer α) :
    ∃ rs2, rs2.Sublist rs ∧
      (b.appendMany rs).persisted = b.persisted ++ rs2 := by
  induction rs generalizing b with
  | nil => exact ⟨[], List.nil_sublist [], by simp [CaptureBuffer.appendMany]⟩
  | cons r rest ih =>
    have hstep : b.appendMany (r :: rest) = (b.append r).2.appendMany rest :=
      rfl
    obtain ⟨rs2, hsub, hps⟩ := ih (b.append r).2
    rcases persisted_append b r with hcase | hcase
    · refine ⟨r :: rs2, hsub.cons₂ r, ?_⟩
      rw [hstep, hps, hcase, List.append_assoc]
      rfl
    · exact ⟨rs2, hsub.cons r, by rw [hstep, hps, hcase]⟩

/-- C9: each stage entry point emits exactly its fixed event sequence,
with the frame_id argument passed through unchanged to every emitted
event and a fresh monotonic-clock read at each emission point. -/
theorem claim_C9_stage_emissions (fid : Nat) (clk : Nat → Nat) (n : Nat)
    (q : ℚ) (pr : Int) (hq : static_cast_i32 q = some pr) :
    process_camera_frame fid clk n =
      ([.camera_ingest fid (clk n), .perception_start fid (clk (n + 1)),
        .perception_end fid (clk (n + 2))], n + 3) ∧
    plan fid clk n =
      ([.planning_start fid (clk n), .planning_end fid (clk (n + 1))],
        n + 2) ∧
    execute_control fid q clk n =
      some ([.control_output fid (clk n),
             .brake_actuate fid (clk (n + 1)) pr], n + 2) := by
  refine ⟨rfl, rfl, ?_⟩
  simp [execute_control, get_monotonic_ns, hq]

/-- Witness for C9 at frame 1, the identity clock stream and pressure 40. -/
theorem claim_C9_stage_emissions_witness :
    process_camera_frame 1 id 0 =
      ([.camera_ingest 1 (id 0), .perception_start 1 (id (0 + 1)),
        .perception_end 1 (id (0 + 2))], 0 + 3) ∧
    plan 1 id 0 =
      ([.planning_start 1 (id 0), .planning_end 1 (id (0 + 1))], 0 + 2) ∧
    execute_control 1 40 id 0 =
      some ([.control_output 1 (id 0),
             .brake_actuate 1 (id (0 + 1)) 40], 0 + 2) :=
  claim_C9_stage_emissions 1 id 0 40 40
    (by norm_num [static_cast_i32, truncTowardZero])

/-- C10: the pressure recorded by brake_actuate is the truncation toward
zero of the float argument whenever that truncation is representable in
int32_t; for some arguments (outside the int32_t range) the conversion
has no defined result. -/
theorem claim_C10_pressure_cast (fid : Nat) (clk : Nat → Nat) (n : Nat)
    (q : ℚ)
    (hin : -(2 ^ 31) ≤ truncTowardZero q ∧ truncTowardZero q < 2 ^ 31) :
    execute_control fid q clk n =
      some ([.control_output fid (clk n),
             .brake_actuate fid (clk (n + 1)) (truncTowardZero q)],
        n + 2) ∧
    ∃ q2 : ℚ, static_cast_i32 q2 = none := by
  constructor
  · simp only [execute_control, get_monotonic_ns, static_cast_i32,
      if_pos hin]
  · refine ⟨(2 : ℚ) ^ 31, ?_⟩
    have h1 : truncTowardZero ((2 : ℚ) ^ 31) = 2 ^ 31 := by
      unfold truncTowardZero
      rw [if_pos (by positivity)]
      rw [show ((2 : ℚ) ^ 31) = ((2 ^ 31 : ℤ) : ℚ) by push_cast; ring]
      exact Int.floor_intCast _
    simp only [static_cast_i32, h1]
    norm_num

/-- Witness for C10 at pressure 40.5, which truncates to 40. -/
theorem claim_C10_pressure_cast_witness :
    execute_control 1 (81 / 2) id 0 =
      some ([.control_output 1 (id 0),
             .brake_actuate 1 (id (0 + 1)) (truncTowardZero (81 / 2))],
        0 + 2) ∧
    ∃ q2 : ℚ, static_cast_i32 q2 = none :=
  claim_C10_pressure_cast 1 id 0 (81 / 2)
    (by norm_num [truncTowardZero])

/-- C4: within one producer's buffer, append order is timestamp order:
the stage entry point emits its events in non-decreasing timestamp
order whenever the clock is monotone, and the records accepted from an
append sequence reach the persisted trace as a subsequence in append
order, hence still in non-decreasing timestamp order. -/
theorem claim_C4_append_order (fid : Nat) (clk : Nat → Nat)
    (hclk : ∀ i j, i ≤ j → clk i ≤ clk j) (n : Nat)
    (rs : List HaloEvent) (cap pool : Nat)
    (hrs : List.Chain' (fun a b => a.ts ≤ b.ts) rs) :
    List.Chain' (fun a b => a.ts ≤ b.ts)
      (process_camera_frame fid clk n).1 ∧
    ∃ rs2, rs2.Sublist rs ∧
      ((CaptureBuffer.fresh HaloEvent cap pool).appendMany rs).persisted
        = rs2 ∧
      List.Chain' (fun a b => a.ts ≤ b.ts) rs2 := by
  constructor
  · simp only [process_camera_frame, get_monotonic_ns, detect_objects,
      List.append_nil, List.cons_append, List.nil_append,
      List.chain'_cons, List.chain'_singleton, and_true, HaloEvent.ts]
    exact ⟨hclk n (n + 1) (by omega), hclk (n + 1) (n + 2) (by omega)⟩
  · obtain ⟨rs2, hsub, hps⟩ :=
      persisted_appendMany_sublist rs (CaptureBuffer.fresh HaloEvent cap pool)
    refine ⟨rs2, hsub, ?_, ?_⟩
    · simpa [CaptureBuffer.fresh, CaptureBuffer.persisted] using hps
    · haveI : IsTrans HaloEvent (fun a b => a.ts ≤ b.ts) :=
        ⟨fun _ _ _ hab hbc => le_trans hab hbc⟩
      exact hrs.sublist hsub

/-- Witness for C4 with the identity clock and a two-record append
sequence into a one-slot segment with an empty pool. -/
theorem claim_C4_append_order_witness :
    List.Chain' (fun a b => a.ts ≤ b.ts)
      (process_camera_frame 1 id 0).1 ∧
    ∃ rs2, rs2.Sublist [HaloEvent.camera_ingest 1 0,
        HaloEvent.perception_start 1 5] ∧
      ((CaptureBuffer.fresh HaloEvent 1 0).appendMany
        [HaloEvent.camera_ingest 1 0,
         HaloEvent.perception_start 1 5]).persisted = rs2 ∧
      List.Chain' (fun a b => a.ts ≤ b.ts) rs2 :=
  claim_C4_append_order 1 id (fun i j h => h) 0
    [HaloEvent.camera_ingest 1 0, HaloEvent.perception_start 1 5] 1 0
    (by simp [HaloEvent.ts])

theorem mem_stageList (s : Stage) : s ∈ stageList := by
  cases s <;> simp [stageList]

/-- C2: on the synthetic correlated trace camera(0), perception(5–12),
planning(12–20), control(21), brake(22, pressure 40) the correlator
produces the intervals 5, 7, 0, 8, 1, 1 with nothing Unavailable and no
OrderingAnomaly. -/
theorem claim_C2_synthetic_intervals :
    correlate (syntheticTrace 1) 1 =
      ⟨some 5, some 7, some 0, some 8, some 1, some 1, false⟩ := by
  decide

/-! ## C7/C8 helper lemmas -/

theorem find?_filter_of_imp {α : Type} {p q : α → Bool} (l : List α)
    (h : ∀ e, p e = true → q e = true) :
    (l.filter q).find? p = l.find? p := by
  induction l with
  | nil => rfl
  | cons e rest ih =>
    by_cases hq : q e = true
    · rw [List.filter_cons_of_pos hq]
      by_cases hp : p e = true
      · rw [List.find?_cons_of_pos _ hp, List.find?_cons_of_pos _ hp]
      · rw [List.find?_cons_of_neg _ (by simpa using hp),
          List.find?_cons_of_neg _ (by simpa using hp), ih]
    · rw [List.filter_cons_of_neg (by simpa using hq), ih]
      have hp : ¬ p e = true := fun hpe => hq (h e hpe)
      rw [List.find?_cons_of_neg _ (by simpa using hp)]

theorem tsOf_dropStage_of_ne (evs : List CEvent) (f : Nat) (s s2 : Stage)
    (hs : s2 ≠ s) :
    tsOf (dropStage evs f s) f s2 = tsOf evs f s2 := by
  unfold tsOf dropStage
  rw [find?_filter_of_imp]
  intro e he
  simp only [Bool.and_eq_true, beq_iff_eq] at he
  simp [he.1, he.2, hs]

theorem tsOf_dropStage_self (evs : List CEvent) (f : Nat) (s : Stage) :
    tsOf (dropStage evs f s) f s = none := by
  have h : (dropStage evs f s).find?
      (fun e => e.frame == f && e.stage == s) = none := by
    rw [List.find?_eq_none]
    intro e he
    obtain ⟨-, hq⟩ := List.mem_filter.mp he
    simp only [Bool.not_eq_true', Bool.and_eq_false_iff] at hq
    simp only [Bool.and_eq_true, beq_iff_eq, not_and]
    intro h1 h2
    rcases hq with hq | hq <;> simp [h1, h2] at hq
  simp [tsOf, h]

/-- A stage with no event for the frame has no observed timestamp. -/
theorem tsOf_none_of_absent (evs : List CEvent) (f : Nat) (s : Stage)
    (h : ∀ e ∈ evs, ¬(e.stage = s ∧ e.frame = f)) :
    tsOf evs f s = none := by
  unfold tsOf
  rw [List.find?_eq_none.mpr]
  · rfl
  · intro e he hp
    simp only [Bool.and_eq_true, beq_iff_eq] at hp
    exact h e he ⟨hp.2, hp.1⟩

/-- An interval with a missing endpoint stage is Unavailable. -/
theorem interval_none_of_endpoint (evs : List CEvent) (f : Nat)
    (s a b : Stage) (hs : tsOf evs f s = none) (hab : s = a ∨ s = b) :
    interval evs f a b = none := by
  rcases hab with hab | hab <;> subst hab
  · unfold interval
    rw [hs]
  · unfold interval
    rw [hs]
    cases tsOf evs f a <;> rfl

theorem anomalyFlag_dropStage (evs : List CEvent) (f : Nat) (s : Stage)
    (h : anomalyFlag evs f = false) :
    anomalyFlag (dropStage evs f s) f = false := by
  unfold anomalyFlag at h ⊢
  simp only [List.any_eq_false, Bool.not_eq_true] at h ⊢
  intro a ha b hb
  have hb2 := h a ha b hb
  by_cases hA : a = s
  · subst hA
    unfold outOfOrder
    rw [tsOf_dropStage_self]
  · by_cases hB : b = s
    · subst hB
      cases h' : tsOf (dropStage evs f b) f a <;>
        simp [outOfOrder, h', tsOf_dropStage_self]
    · have : outOfOrder (dropStage evs f s) f a b = outOfOrder evs f a b := by
        unfold outOfOrder
        rw [tsOf_dropStage_of_ne _ _ _ _ hA, tsOf_dropStage_of_ne _ _ _ _ hB]
      rw [this]
      exact hb2

/-- Dropping a stage empties exactly the intervals it bounds. -/
theorem interval_dropStage (evs : List CEvent) (f : Nat) (s a b : Stage) :
    interval (dropStage evs f s) f a b =
      if s = a ∨ s = b then none else interval evs f a b := by
  by_cases ha : s = a
  · rw [if_pos (Or.inl ha)]
    exact interval_none_of_endpoint _ _ s a b
      (tsOf_dropStage_self evs f s) (Or.inl ha)
  · by_cases hb : s = b
    · rw [if_pos (Or.inr hb)]
      exact interval_none_of_endpoint _ _ s a b
        (tsOf_dropStage_self evs f s) (Or.inr hb)
    · rw [if_neg (by tauto)]
      unfold interval
      rw [tsOf_dropStage_of_ne _ _ _ _ (fun h2 => ha h2.symm),
        tsOf_dropStage_of_ne _ _ _ _ (fun h2 => hb h2.symm)]

/-- C7: a frame missing any expected stage event (brake_actuate or any
other) gets a partial timeline: every interval bounded by the missing
stage is Unavailable (none), with no error; and removing one frame's
events of any one stage from a fully-populated trace whose timeline
shows no ordering anomaly turns exactly the interval(s) bounded by that
stage Unavailable and changes no other field of the frame's timeline. -/
theorem claim_C7_missing_stage (evs : List CEvent) (f : Nat) (s : Stage) :
    ((∀ e ∈ evs, ¬(e.stage = s ∧ e.frame = f)) →
      ∀ a b : Stage, s = a ∨ s = b → interval evs f a b = none) ∧
    ((correlate evs f).orderingAnomaly = false →
      correlate (dropStage evs f s) f = maskStage (correlate evs f) s) := by
  constructor
  · intro h a b hab
    exact interval_none_of_endpoint evs f s a b
      (tsOf_none_of_absent evs f s h) hab
  · intro hna
    have hano := anomalyFlag_dropStage evs f s hna
    simp only [correlate, maskStage, FrameTimeline.mk.injEq]
    exact ⟨interval_dropStage evs f s _ _, interval_dropStage evs f s _ _,
      interval_dropStage evs f s _ _, interval_dropStage evs f s _ _,
      interval_dropStage evs f s _ _, interval_dropStage evs f s _ _,
      hano.trans hna.symm⟩

/-- C8: two stages of a frame observed with timestamps against pipeline
order set OrderingAnomaly for that frame, without throwing; and any
other frame's timeline depends only on its own events, so it is
unaffected. -/
theorem claim_C8_ordering_anomaly (evs evs2 : List CEvent) (f g : Nat)
    (a b : Stage) (ta tb : Nat) (hidx : a.idx < b.idx)
    (hta : tsOf evs f a = some ta) (htb : tsOf evs f b = some tb)
    (hlt : tb < ta) :
    (correlate evs f).orderingAnomaly = true ∧
    ((evs.filter fun e => e.frame == g) =
        (evs2.filter fun e => e.frame == g) →
      correlate evs g = correlate evs2 g) := by
  constructor
  · show anomalyFlag evs f = true
    unfold anomalyFlag
    rw [List.any_eq_true]
    refine ⟨a, mem_stageList a, ?_⟩
    rw [List.any_eq_true]
    refine ⟨b, mem_stageList b, ?_⟩
    simp [outOfOrder, hta, htb, hidx, hlt]
  · intro hfil
    have hts : ∀ s, tsOf evs g s = tsOf evs2 g s := by
      intro s
      have h1 : ∀ e : CEvent,
          (e.frame == g && e.stage == s) = true → (e.frame == g) = true := by
        intro e he
        simp only [Bool.and_eq_true] at he
        exact he.1
      unfold tsOf
      rw [← find?_filter_of_imp evs h1, hfil, find?_filter_of_imp evs2 h1]
    simp only [correlate, interval, anomalyFlag, outOfOrder, hts]

/-- Witness for C7 on the synthetic trace, once missing brake_actuate
(one interval Unavailable) and once missing perception_end (two
intervals Unavailable). -/
theorem claim_C7_missing_stage_witness :
    interval (dropStage (syntheticTrace 1) 1 .brake) 1 .control .brake
      = none ∧
    correlate (dropStage (syntheticTrace 1) 1 .brake) 1 =
      maskStage (correlate (syntheticTrace 1) 1) .brake ∧
    correlate (dropStage (syntheticTrace 1) 1 .percEnd) 1 =
      maskStage (correlate (syntheticTrace 1) 1) .percEnd :=
  ⟨(claim_C7_missing_stage (dropStage (syntheticTrace 1) 1 .brake) 1
      .brake).1 (by decide) .control .brake (Or.inr rfl),
   (claim_C7_missing_stage (syntheticTrace 1) 1 .brake).2 (by decide),
   (claim_C7_missing_stage (syntheticTrace 1) 1 .percEnd).2 (by decide)⟩

/-- Witness for C8: perception_start(t=10)/perception_end(t=8) on frame 1
flag the anomaly while frame 2 correlates as if frame 1 were absent. -/
theorem claim_C8_ordering_anomaly_witness :
    (correlate anomalyTrace 1).orderingAnomaly = true ∧
    correlate anomalyTrace 2 = correlate otherFrameTrace 2 :=
  have H := claim_C8_ordering_anomaly anomalyTrace otherFrameTrace 1 2
    .percStart .percEnd 10 8 (by decide) (by decide) (by decide) (by decide)
  ⟨H.1, H.2 (by decide)⟩

end Halo
